import Mathlib

/-!
# Verification of the polar_hub beat-processing pipeline

Shallow embedding of the polar_hub repository's beat-processing code:

* `src/lipponen.js` — the Lipponen–Tarvainen (2019) RR-interval artifact
  classifier `analyzeRR`;
* `src/server.js` — the `POST /beats` real-time ingest handler and the
  `POST /beats/batch` gap-based deduplicating handler;
* `src/postprocessor.js` — the post-processor's `triggerReprocess`.

JavaScript numbers are modelled as exact rationals (`ℚ`); array indexing
`a[i]` at indices the code keeps in bounds is modelled with `List.getD`;
the JS stable `Array.prototype.sort` on numbers is modelled with
`List.insertionSort` (stable, and on numeric keys any sorted permutation
yields the same value sequence); store reads/writes and the HRV RMSSD
value (a floating-point square root) are treated as explicit parameters.
-/

namespace PolarHub

/-- Artifact classification labels of the data model (`artifact_type`).
`missed_inserted` is only ever written by the post-processor for synthetic
beats; `analyzeRR` itself never emits it. -/
inductive AT where
  | none
  | ectopic
  | missed
  | extra
  | extra_absorbed
  | longshort
  | missed_inserted
deriving DecidableEq

/-- One entry of `analyzeRR`'s `results` array: `rr_clean` is `none`
exactly where the JS code stores `null`. -/
structure RRItem where
  rr_clean : Option ℚ
  artifact_type : AT
deriving DecidableEq

/-- The `stats` record returned by `analyzeRR`. -/
structure RRStats where
  total : Nat
  artifacts : Nat
  ectopic : Nat
  missed : Nat
  extra : Nat
  longshort : Nat
deriving DecidableEq

/-- Return value of `analyzeRR`. -/
structure AnalyzeResult where
  results : List RRItem
  cleanSeries : List ℚ
  stats : RRStats
deriving DecidableEq

/-- Constant `THRESHOLD_FACTOR = 5.2` in lipponen.js. -/
def THRESHOLD_FACTOR : ℚ := 26 / 5

/-- Constant `QD_WINDOW = 91` in lipponen.js. -/
def QD_WINDOW : Nat := 91

/-- Constant `MEDIAN_WINDOW = 11` in lipponen.js. -/
def MEDIAN_WINDOW : Nat := 11

/-- Constant `C1 = 0.13` in lipponen.js. -/
def ectC1 : ℚ := 13 / 100

/-- Constant `C2 = 0.17` in lipponen.js. -/
def ectC2 : ℚ := 17 / 100

/-- Constant `MIN_THRESHOLD = 50` in lipponen.js. -/
def MIN_THRESHOLD : ℚ := 50

/-- Function `median(arr)` from lipponen.js: sort ascending, take the middle
element (odd length) or the mean of the two middle elements (even
length); `0` for the empty array. -/
def median (arr : List ℚ) : ℚ :=
  if arr.length = 0 then 0
  else
    let s := arr.insertionSort (· ≤ ·)
    let mid := arr.length / 2
    if arr.length % 2 ≠ 0 then s.getD mid 0
    else (s.getD (mid - 1) 0 + s.getD mid 0) / 2

/-- Function `quantile(arr, q)` from lipponen.js: linear interpolation between the
order statistics at the (possibly fractional) position `(len − 1)·q`.
`Math.floor` is modelled by `num / den` on `ℤ` (the position is
nonnegative for the `q` the code uses, where truncation equals floor). -/
def quantile (arr : List ℚ) (q : ℚ) : ℚ :=
  if arr.length = 0 then 0
  else
    let s := arr.insertionSort (· ≤ ·)
    let pos : ℚ := ((arr.length : ℚ) - 1) * q
    let base : Nat := (pos.num / (pos.den : ℤ)).toNat
    let rest : ℚ := pos - (base : ℚ)
    if base + 1 < arr.length then
      s.getD base 0 + rest * (s.getD (base + 1) 0 - s.getD base 0)
    else s.getD base 0

/-- Function `quartileDeviation(arr)` from lipponen.js: `(Q3 − Q1)/2`. -/
def quartileDeviation (arr : List ℚ) : ℚ :=
  (quantile arr (3 / 4) - quantile arr (1 / 4)) / 2

/-- Function `rollingCentered(arr, windowSize, fn)` from lipponen.js: apply `fn`
to a centered window that shrinks (does not pad) at the edges. -/
def rollingCentered (arr : List ℚ) (windowSize : Nat) (fn : List ℚ → ℚ) : List ℚ :=
  let half := windowSize / 2
  (List.range arr.length).map fun i =>
    let s := i - half
    let e := min arr.length (i + half + 1)
    fn ((arr.drop s).take (e - s))

/-- The per-index derived data the classification walk of `analyzeRR`
reads: length `n` and the arrays `rr`, `drrs`, `mrrs`, `s12`, `s22`,
`medrr`, `th2`. -/
structure Ctx where
  n : Nat
  rr : List ℚ
  drrs : List ℚ
  mrrs : List ℚ
  s12 : List ℚ
  s22 : List ℚ
  medrr : List ℚ
  th2 : List ℚ
deriving DecidableEq

/-- The ectopic test of the classification walk (lipponen.js line 401):
`(drrs[i] > 1 ∧ s12[i] < −C1·drrs[i] − C2) ∨ (drrs[i] < −1 ∧ s12[i] > −C1·drrs[i] + C2)`. -/
def ectopicFires (c : Ctx) (i : Nat) : Prop :=
  (c.drrs.getD i 0 > 1 ∧ c.s12.getD i 0 < -ectC1 * c.drrs.getD i 0 - ectC2) ∨
  (c.drrs.getD i 0 < -1 ∧ c.s12.getD i 0 > -ectC1 * c.drrs.getD i 0 + ectC2)

instance (c : Ctx) (i : Nat) : Decidable (ectopicFires c i) := by
  unfold ectopicFires; exact inferInstance

/-- One candidate `j` of the extra/missed tests (lipponen.js lines
426–447): the extra-beat test first, then the missed-beat test; on
success returns the new walk index `j + 2` and the updated
classification array. -/
def tryCand (c : Ctx) (cls : List AT) (j : Nat) : Option (Nat × List AT) :=
  if j + 1 < c.n ∧ c.drrs.getD j 0 < -1 ∧ c.s22.getD j 0 > 1 ∧
      |c.rr.getD j 0 + c.rr.getD (j + 1) 0 - c.medrr.getD j 0| < c.th2.getD j 0 then
    some (j + 2, (cls.set j AT.extra).set (j + 1) AT.extra_absorbed)
  else if c.drrs.getD j 0 > 1 ∧ c.s22.getD j 0 < -1 ∧
      |c.rr.getD j 0 / 2 - c.medrr.getD j 0| < c.th2.getD j 0 then
    some (j + 2, cls.set j AT.missed)
  else none

/-- The body of the classification walk's `while` loop (lipponen.js
lines 394–457), for a walk position `i < n − 2`: returns the next index,
the updated classification array and the updated ectopic-pair list. -/
def walkStep (c : Ctx) (i : Nat) (cls : List AT) (pairs : List (Nat × Nat)) :
    Nat × List AT × List (Nat × Nat) :=
  if |c.drrs.getD i 0| ≤ 1 then (i + 1, cls, pairs)
  else if ectopicFires c i then
    if 0 < i then (i + 2, cls, pairs ++ [(i - 1, i)])
    else (i + 2, cls.set i AT.longshort, pairs)
  else if 1 < |c.drrs.getD i 0| ∨ 3 < |c.mrrs.getD i 0| then
    match tryCand c cls i with
    | some (i', cls') => (i', cls', pairs)
    | none =>
      if i + 2 < c.n ∧ |c.drrs.getD (i + 1) 0| < |c.drrs.getD (i + 2) 0| then
        match tryCand c cls (i + 1) with
        | some (i', cls') => (i', cls', pairs)
        | none => (i + 1, cls.set i AT.longshort, pairs)
      else (i + 1, cls.set i AT.longshort, pairs)
  else (i + 1, cls, pairs)

/-- The classification walk `while (i < n − 2)` of lipponen.js, with an
explicit fuel argument; every `walkStep` advances the index by at least
one, so fuel `n` (as passed by `analyzeRR`) always suffices. -/
def walk (c : Ctx) : Nat → Nat → List AT → List (Nat × Nat) → List AT × List (Nat × Nat)
  | 0, _, cls, pairs => (cls, pairs)
  | fuel + 1, i, cls, pairs =>
    if i + 2 < c.n then
      let s := walkStep c i cls pairs
      walk c fuel s.1 s.2.1 s.2.2
    else (cls, pairs)

/-- Step 9 of `analyzeRR` (lipponen.js lines 459–483): initialize
`results` with `rr_clean = rr[idx]`, then apply the non-ectopic
corrections per classification. -/
def correct1 (rr medrr : List ℚ) (n : Nat) (cls : List AT) : List RRItem :=
  (List.range n).map fun idx =>
    match cls.getD idx AT.none with
    | AT.missed => { rr_clean := some (rr.getD idx 0 / 2), artifact_type := AT.missed }
    | AT.extra =>
        { rr_clean := some (if idx + 1 < n then rr.getD idx 0 + rr.getD (idx + 1) 0
                            else rr.getD idx 0),
          artifact_type := AT.extra }
    | AT.extra_absorbed => { rr_clean := Option.none, artifact_type := AT.extra_absorbed }
    | AT.longshort => { rr_clean := some (medrr.getD idx 0), artifact_type := AT.longshort }
    | t => { rr_clean := some (rr.getD idx 0), artifact_type := t }

/-- Ectopic corrections (lipponen.js lines 486–492), applied last: both
indices of each recorded pair get `rr_clean = (rr[a] + rr[b])/2` and
`artifact_type = ectopic`. -/
def applyEctopic (rr : List ℚ) (pairs : List (Nat × Nat)) (res : List RRItem) : List RRItem :=
  pairs.foldl (fun r p =>
    let avg := (rr.getD p.1 0 + rr.getD p.2 0) / 2
    (r.set p.1 { rr_clean := some avg, artifact_type := AT.ectopic }).set p.2
      { rr_clean := some avg, artifact_type := AT.ectopic }) res

/-- Step 10 of `analyzeRR` (lipponen.js lines 495–506): skip absorbed
beats (`rr_clean = null`), emit missed beats twice, everything else once. -/
def buildCleanSeries : List RRItem → List ℚ
  | [] => []
  | r :: rest =>
    match r.rr_clean with
    | Option.none => buildCleanSeries rest
    | some v =>
      if r.artifact_type = AT.missed then v :: v :: buildCleanSeries rest
      else v :: buildCleanSeries rest

/-- The `stats` block of `analyzeRR` (lipponen.js lines 509–515). -/
def buildStats (n : Nat) (results : List RRItem) : RRStats :=
  let ec := results.countP fun r => decide (r.artifact_type = AT.ectopic)
  let mi := results.countP fun r => decide (r.artifact_type = AT.missed)
  let ex := results.countP fun r => decide (r.artifact_type = AT.extra)
  let ls := results.countP fun r => decide (r.artifact_type = AT.longshort)
  { total := n, artifacts := ec + mi + ex + ls,
    ectopic := ec, missed := mi, extra := ex, longshort := ls }

/-- Steps 1–7 of `analyzeRR` (lipponen.js lines 330–385): the dRR
series with its mean-filled first element, the adaptive thresholds, the
local medians, the normalized series and the two subspace projections,
packaged as the context the classification walk reads. -/
def ctxOf (rrIntervals : List ℚ) : Ctx :=
  let n := rrIntervals.length
  let rr := rrIntervals
  let diffs := List.zipWith (fun a b => b - a) rr rr.tail
  let dRR := (diffs.sum / ((n : ℚ) - 1)) :: diffs
  let th1 := rollingCentered dRR QD_WINDOW fun w =>
    max (THRESHOLD_FACTOR * quartileDeviation w) MIN_THRESHOLD
  let medrr := rollingCentered rr MEDIAN_WINDOW median
  let mRR := List.zipWith (fun r m => let x := r - m; if x < 0 then 2 * x else x) rr medrr
  let th2 := rollingCentered mRR QD_WINDOW fun w =>
    max (THRESHOLD_FACTOR * quartileDeviation w) MIN_THRESHOLD
  let drrs := List.zipWith (· / ·) dRR th1
  let mrrs := List.zipWith (· / ·) mRR th2
  let s12 := (List.range n).map fun i =>
    if 0 < i ∧ i + 1 < n then
      if drrs.getD i 0 > 0 then max (drrs.getD (i - 1) 0) (drrs.getD (i + 1) 0)
      else if drrs.getD i 0 < 0 then min (drrs.getD (i - 1) 0) (drrs.getD (i + 1) 0)
      else 0
    else 0
  let s22 := (List.range n).map fun i =>
    if i + 2 < n then
      if drrs.getD i 0 ≥ 0 then min (drrs.getD (i + 1) 0) (drrs.getD (i + 2) 0)
      else max (drrs.getD (i + 1) 0) (drrs.getD (i + 2) 0)
    else 0
  ⟨n, rr, drrs, mrrs, s12, s22, medrr, th2⟩

/-- Steps 8–10 of `analyzeRR` for `n ≥ 4`: run the classification walk,
apply the non-ectopic then the ectopic corrections, build the clean
series and the stats. -/
def analyzeMain (rrIntervals : List ℚ) : AnalyzeResult :=
  let n := rrIntervals.length
  let c := ctxOf rrIntervals
  let wk := walk c n 0 (List.replicate n AT.none) []
  let res1 := correct1 rrIntervals c.medrr n wk.1
  let results := applyEctopic rrIntervals wk.2 res1
  { results := results
    cleanSeries := buildCleanSeries results
    stats := buildStats n results }

/-- Function `analyzeRR(rrIntervals)` from lipponen.js: the Lipponen–Tarvainen
artifact classifier with corrections. -/
def analyzeRR (rrIntervals : List ℚ) : AnalyzeResult :=
  let n := rrIntervals.length
  if n < 4 then
    { results := rrIntervals.map fun rr => { rr_clean := some rr, artifact_type := AT.none }
      cleanSeries := rrIntervals
      stats := { total := n, artifacts := 0, ectopic := 0, missed := 0, extra := 0,
                 longshort := 0 } }
  else analyzeMain rrIntervals

/-! ## Server model (`src/server.js`)

The HTTP handlers are modelled as pure functions. Request bodies are
typed records whose optional fields model absent JSON keys; JS falsiness
of `device`, `posture` and `timestamp` (`undefined`, `null`, `""`, `0`)
is modelled explicitly at the corresponding checks. The InfluxDB store
is abstracted: the handler returns the list of write operations it
issues, and read/write outcomes are explicit `Except` parameters. The
floating-point RMSSD produced by `calculateHRV` (a square root) is
abstracted as a function parameter `rmssdOf`. -/

/-- Per-device in-memory state of server.js (`deviceState` entries). -/
structure DevState where
  rrWindow : List ℚ
  rmssdBuffer : List ℚ
  totalBeats : Nat
  lastPosture : String
deriving DecidableEq

/-- Fresh state created by `getDeviceState` on first access. -/
def freshDevState : DevState :=
  { rrWindow := [], rmssdBuffer := [], totalBeats := 0, lastPosture := "unknown" }

/-- A `POST /beats` request body. -/
structure BeatsRequest where
  source : Option String
  device : Option String
  timestamp : Option ℚ
  heartRate : Option ℚ
  rrIntervals : Option (List ℚ)
  posture : Option String

/-- A store write issued by the `/beats` handler: a raw beat
(`writeRawBeat`, carrying timestamp and rr) or the per-window realtime
HRV point (`writeRealtime`, carrying its timestamp). -/
inductive StoreWrite where
  | raw (ts rr : ℚ)
  | realtime (ts : ℚ)
deriving DecidableEq

/-- The `/beats` handler's response. -/
inductive BeatsResponse where
  | badRequest
  | okBeats (received : Nat)
deriving DecidableEq

/-- Association-list lookup modelling `deviceState.get(device)`. -/
def lookupDev : List (String × DevState) → String → Option DevState
  | [], _ => Option.none
  | (k, v) :: rest, d => if k = d then some v else lookupDev rest d

/-- Association-list update modelling `deviceState.set(device, st)`. -/
def setDev : List (String × DevState) → String → DevState → List (String × DevState)
  | [], d, v => [(d, v)]
  | (k, w) :: rest, d, v => if k = d then (d, v) :: rest else (k, w) :: setDev rest d v

/-- Expression `timestamp || Date.now()` (server.js line 186): any falsy timestamp
(absent, null or `0`) falls back to the current time. -/
def beatT (req : BeatsRequest) (now : ℚ) : ℚ :=
  match req.timestamp with
  | some v => if v = 0 then now else v
  | Option.none => now

/-- The body of the per-RR loop of `/beats` (server.js lines 190–205):
the accumulator carries `cumulativeRR`, the device state and the raw
writes issued so far. -/
def beatsFold (t : ℚ) (acc : ℚ × DevState × List StoreWrite) (rrv : ℚ) :
    ℚ × DevState × List StoreWrite :=
  let ts := t + acc.1
  let st := acc.2.1
  let st' := { st with
    totalBeats := st.totalBeats + 1
    rrWindow :=
      let w := st.rrWindow ++ [rrv]
      if 60 < w.length then w.drop 1 else w }
  (acc.1 + rrv, st', acc.2.2 ++ [StoreWrite.raw ts rrv])

/-- The `POST /beats` handler (server.js lines 172–266).  `rmssdOf`
abstracts the RMSSD field of `calculateHRV` over the cleaned window
(`Option.none` when the JS value is `null`); log lines, SSE broadcast,
`latestBeatData` and `relayState` are outside the model. -/
def postBeats (rmssdOf : List ℚ → Option ℚ) (states : List (String × DevState))
    (req : BeatsRequest) (now : ℚ) :
    BeatsResponse × List StoreWrite × List (String × DevState) :=
  match req.device, req.rrIntervals with
  | some d, some rrs =>
    if d = "" then (BeatsResponse.badRequest, [], states)
    else if rrs.length = 0 then (BeatsResponse.okBeats 0, [], states)
    else
      let st0 := (lookupDev states d).getD freshDevState
      let st1 := { st0 with lastPosture :=
        match req.posture with
        | some p => if p = "" then "unknown" else p
        | Option.none => "unknown" }
      let t := beatT req now
      let fin := rrs.foldl (beatsFold t) (0, st1, [])
      let cum := fin.1
      let st2 := fin.2.1
      let rawWrites := fin.2.2
      let rmssdVal : Option ℚ :=
        if 4 ≤ st2.rrWindow.length then
          let cs := (analyzeRR st2.rrWindow).cleanSeries
          if 2 ≤ cs.length then rmssdOf cs else Option.none
        else Option.none
      let lastTs := t + cum - rrs.getLastD 0
      let st3 :=
        match rmssdVal with
        | some v => { st2 with rmssdBuffer :=
            let b := st2.rmssdBuffer ++ [v]
            if 30 < b.length then b.drop 1 else b }
        | Option.none => st2
      (BeatsResponse.okBeats rrs.length, rawWrites ++ [StoreWrite.realtime lastTs],
       setDev states d st3)
  | _, _ => (BeatsResponse.badRequest, [], states)

/-- The timestamps `t, t+rr[0], t+rr[0]+rr[1], …` the `/beats` loop
derives for an RR series starting at `t`. -/
def cumTs (t : ℚ) : List ℚ → List ℚ
  | [] => []
  | rrv :: rest => t :: cumTs (t + rrv) rest

/-- The raw-beat writes the `/beats` loop issues for an RR series
starting at `t`. -/
def rawWritesFor (t : ℚ) : List ℚ → List StoreWrite
  | [] => []
  | rrv :: rest => StoreWrite.raw t rrv :: rawWritesFor (t + rrv) rest

/-- Projection of a write list to the timestamps of its raw-beat writes. -/
def rawTs (writes : List StoreWrite) : List ℚ :=
  writes.filterMap fun w =>
    match w with
    | StoreWrite.raw ts _ => some ts
    | StoreWrite.realtime _ => Option.none

/-! ### `POST /beats/batch` (server.js lines 275–381) -/

/-- One beat of a `/beats/batch` request body. -/
structure BatchBeat where
  timestamp : ℚ
  heartRate : Option ℚ
  rrIntervals : Option (List ℚ)
deriving DecidableEq

/-- A `POST /beats/batch` request body. -/
structure BatchRequest where
  source : Option String
  device : Option String
  beats : Option (List BatchBeat)

/-- An existing raw beat returned by the `queryRawBeats` dedup query
(`time` plus optional `rr_interval` field). -/
structure ExBeat where
  time : ℚ
  rr_interval : Option ℚ
deriving DecidableEq, Inhabited

/-- One flattened incoming point (server.js lines 294–309); the
`heart_rate`, `source` and `path` fields do not influence dedup and are
omitted. -/
structure InPoint where
  timestamp : ℚ
  rr_interval : ℚ
deriving DecidableEq, Inhabited

/-- A gap in the existing coverage: `[start, stop]` (source field names
`start`/`end`; `end` is a Lean keyword). -/
structure Gap where
  start : ℚ
  stop : ℚ
deriving DecidableEq

/-- Constant `GAP_THRESHOLD_MS = 300` in server.js. -/
def GAP_THRESHOLD_MS : ℚ := 300

/-- The `/beats/batch` response. -/
inductive BatchResponse where
  | badRequest
  | serverError
  | okBatch (received newCount duplicates : Nat)
deriving DecidableEq

/-- Lay one beat's RR series head-to-tail from its timestamp
(server.js lines 297–307). -/
def flattenRR (ts : ℚ) : List ℚ → List InPoint
  | [] => []
  | rrv :: rest => { timestamp := ts, rr_interval := rrv } :: flattenRR (ts + rrv) rest

/-- Flatten one batch beat; beats without a non-empty `rrIntervals` are
skipped (server.js line 296). -/
def flattenOne (b : BatchBeat) : List InPoint :=
  match b.rrIntervals with
  | some rrs => if 0 < rrs.length then flattenRR b.timestamp rrs else []
  | Option.none => []

/-- Array `incomingPoints` after flattening and the stable ascending sort by
timestamp (server.js line 315). -/
def handlerIncoming (beats : List BatchBeat) : List InPoint :=
  ((beats.map flattenOne).flatten).insertionSort fun a b => a.timestamp ≤ b.timestamp

/-- The existing beats the handler works with: the query result, or `[]`
when the dedup query failed (the `catch` of server.js lines 322–326 logs
and continues with an empty list). -/
def handlerExisting (queryRes : Except Unit (List ExBeat)) : List ExBeat :=
  match queryRes with
  | Except.ok l => l
  | Except.error _ => []

/-- Value `firstTs` of the sorted incoming points. -/
def firstTsOf (incoming : List InPoint) : ℚ := (incoming.headD default).timestamp

/-- Value `lastTs` of the sorted incoming points. -/
def lastTsOf (incoming : List InPoint) : ℚ := (incoming.getLastD default).timestamp

/-- Gap detection over the existing beats (server.js lines 334–353),
called only with a non-empty `existing`: interior gaps where the next
beat starts more than 300 ms after the previous beat's expected end, a
leading gap, and a trailing gap extended by the 2 s pad. -/
def gapsOf (existing : List ExBeat) (firstTs lastTs : ℚ) : List Gap :=
  let consec := (List.range (existing.length - 1)).filterMap fun i =>
    let expectedNext := (existing.getD i default).time +
      ((existing.getD i default).rr_interval.getD 0)
    let actualNext := (existing.getD (i + 1) default).time
    if actualNext - expectedNext > GAP_THRESHOLD_MS then
      some { start := expectedNext, stop := actualNext }
    else Option.none
  let withLead :=
    if firstTs < (existing.headD default).time - GAP_THRESHOLD_MS then
      { start := firstTs, stop := (existing.headD default).time } :: consec
    else consec
  let lastEx := existing.getLastD default
  let trailingStart := lastEx.time + lastEx.rr_interval.getD 0
  if lastTs > trailingStart + GAP_THRESHOLD_MS then
    withLead ++ [{ start := trailingStart, stop := lastTs + 2000 }]
  else withLead

/-- The gap-retention test (server.js lines 355–357): point `p` is kept
iff some gap `g` satisfies `g.start − 300 ≤ p.ts ≤ g.end + 300`. -/
def inGap (gaps : List Gap) (p : InPoint) : Bool :=
  gaps.any fun g =>
    decide (g.start - GAP_THRESHOLD_MS ≤ p.timestamp) &&
    decide (p.timestamp ≤ g.stop + GAP_THRESHOLD_MS)

/-- Array `newPoints` (server.js lines 329–358): the whole incoming set when no
existing beats were found, otherwise the points falling in a gap. -/
def newPointsOf (existing : List ExBeat) (incoming : List InPoint) : List InPoint :=
  if existing.isEmpty then incoming
  else incoming.filter (inGap (gapsOf existing (firstTsOf incoming) (lastTsOf incoming)))

/-- The `POST /beats/batch` handler (server.js lines 275–381). `queryRes`
is the outcome of the dedup `queryRawBeats` call and `writeRes` the
outcome of the `writeRawBatch` call (consulted only when there are new
points to write); `registerDevice`, `triggerReprocess` and logging are
outside the response model. -/
def postBeatsBatch (req : BatchRequest) (queryRes : Except Unit (List ExBeat))
    (writeRes : Except Unit Unit) : BatchResponse :=
  match req.device, req.beats with
  | some d, some beats =>
    if d = "" ∨ beats.isEmpty then BatchResponse.badRequest
    else
      let incoming := handlerIncoming beats
      if incoming.isEmpty then BatchResponse.okBatch 0 0 0
      else
        let existing := handlerExisting queryRes
        let newPoints := newPointsOf existing incoming
        let dup := incoming.length - newPoints.length
        if 0 < newPoints.length then
          match writeRes with
          | Except.error _ => BatchResponse.serverError
          | Except.ok _ => BatchResponse.okBatch incoming.length newPoints.length dup
        else BatchResponse.okBatch incoming.length newPoints.length dup
  | _, _ => BatchResponse.badRequest

/-! ### Post-processor (`src/postprocessor.js`) -/

/-- Function `triggerReprocess(device, fromMs)` (postprocessor.js lines 48–56)
over the post-processor's per-device state (device ↦ `lastProcessedMs`):
a no-op for unregistered devices, otherwise moves `lastProcessedMs`
backward iff `fromMs` is earlier. -/
def triggerReprocess (states : String → Option ℚ) (device : String) (fromMs : ℚ) :
    String → Option ℚ :=
  match states device with
  | Option.none => states
  | some last =>
    if fromMs < last then fun d => if d = device then some fromMs else states d
    else states

/-! ### Shared predicates used by the theorems -/

/-- The classification values the walk itself can store (the ectopic
label is only introduced afterwards, by `applyEctopic`). -/
def walkTypes : List AT :=
  [AT.none, AT.extra, AT.extra_absorbed, AT.missed, AT.longshort]

/-- A well-formed classifier result entry: the artifact type is one of
the six labels `analyzeRR` can emit, and `rr_clean` is `null` exactly
for absorbed extra beats and a positive rational otherwise. -/
def GoodItem (r : RRItem) : Prop :=
  r.artifact_type ∈
    [AT.none, AT.ectopic, AT.missed, AT.extra, AT.extra_absorbed, AT.longshort] ∧
  (r.artifact_type = AT.extra_absorbed → r.rr_clean = Option.none) ∧
  (r.artifact_type ≠ AT.extra_absorbed → ∃ v, r.rr_clean = some v ∧ 0 < v)

/-- Concrete classification-walk context that makes the ectopic test fire
at index 0 (`drrs[0] = −2`, `s12[0] = 1`). -/
def ctxEct0 : Ctx :=
  ⟨4, [1000, 1000, 1000, 1000], [-2, 0, 0, 0], [0, 0, 0, 0], [1, 0, 0, 0],
   [0, 0, 0, 0], [1000, 1000, 1000, 1000], [50, 50, 50, 50]⟩

/-- Concrete classification-walk context that makes the ectopic test fire
at index 1 (`drrs[1] = −2`, `s12[1] = 1`). -/
def ctxEct1 : Ctx :=
  ⟨5, [1000, 1000, 1000, 1000, 1000], [0, -2, 0, 0, 0], [0, 0, 0, 0, 0], [0, 1, 0, 0, 0],
   [0, 0, 0, 0, 0], [1000, 1000, 1000, 1000, 1000], [50, 50, 50, 50, 50]⟩

/-- A concrete `/beats/batch` request: one beat at t = 0 with a single
800 ms RR interval. -/
def batchReq1 : BatchRequest :=
  { source := Option.none, device := some "polar-1",
    beats := some [{ timestamp := 0, heartRate := Option.none, rrIntervals := some [800] }] }

/-! ## Theorems -/

/-! ## Helper lemmas -/

theorem mem_set_preserve {α : Type} {P : α → Prop} {l : List α} {k : Nat} {b : α}
    (hl : ∀ a ∈ l, P a) (hb : P b) : ∀ a ∈ l.set k b, P a := by
  intro a ha
  rcases List.mem_or_eq_of_mem_set ha with h | h
  · exact hl a h
  · exact h ▸ hb

theorem getD_mem_of_lt {α : Type} (l : List α) (k : Nat) (d : α) (h : k < l.length) :
    l.getD k d ∈ l := by
  rw [List.getD_eq_getElem l d h]
  exact List.getElem_mem h

theorem median_pos (l : List ℚ) (hne : l ≠ []) (hl : ∀ x ∈ l, 0 < x) : 0 < median l := by
  have hlen : l.length ≠ 0 := by simpa [List.length_eq_zero] using hne
  have hperm := List.perm_insertionSort (· ≤ ·) l
  have hs : ∀ x ∈ l.insertionSort (· ≤ ·), 0 < x := fun x hx => hl x (hperm.mem_iff.mp hx)
  have hslen : (l.insertionSort (· ≤ ·)).length = l.length := hperm.length_eq
  unfold median
  rw [if_neg hlen]
  by_cases hodd : l.length % 2 ≠ 0
  · rw [if_pos hodd]
    exact hs _ (getD_mem_of_lt _ _ _ (by omega))
  · rw [if_neg hodd]
    have h2 : 2 ≤ l.length := by omega
    have ha := hs _ (getD_mem_of_lt (l.insertionSort (· ≤ ·)) (l.length / 2 - 1) 0 (by omega))
    have hb := hs _ (getD_mem_of_lt (l.insertionSort (· ≤ ·)) (l.length / 2) 0 (by omega))
    positivity

theorem rollingCentered_length (arr : List ℚ) (w : Nat) (fn : List ℚ → ℚ) :
    (rollingCentered arr w fn).length = arr.length := by
  simp [rollingCentered]

theorem rollingCentered_median_pos (arr : List ℚ) (w : Nat) (h : ∀ x ∈ arr, 0 < x)
    (i : Nat) (hi : i < arr.length) :
    0 < (rollingCentered arr w median).getD i 0 := by
  have hlen := rollingCentered_length arr w median
  rw [List.getD_eq_getElem _ _ (by omega : i < (rollingCentered arr w median).length)]
  simp only [rollingCentered, List.getElem_map, List.getElem_range]
  apply median_pos
  · have h1 : i - w / 2 ≤ i := Nat.sub_le _ _
    have : ((arr.drop (i - w / 2)).take (min arr.length (i + w / 2 + 1) - (i - w / 2))).length
        = min (min arr.length (i + w / 2 + 1) - (i - w / 2)) (arr.length - (i - w / 2)) := by
      simp [List.length_take, List.length_drop]
    intro hnil
    rw [hnil] at this
    simp at this
    omega
  · intro x hx
    exact h x (List.mem_of_mem_drop (List.mem_of_mem_take hx))

theorem tryCand_inv (c : Ctx) (cls : List AT) (j i' : Nat) (cls' : List AT)
    (h : tryCand c cls j = some (i', cls')) (hc : ∀ a ∈ cls, a ∈ walkTypes) :
    i' = j + 2 ∧ cls'.length = cls.length ∧ (∀ a ∈ cls', a ∈ walkTypes) := by
  unfold tryCand at h
  split_ifs at h with h1 h2
  · simp only [Option.some.injEq, Prod.mk.injEq] at h
    obtain ⟨rfl, rfl⟩ := h
    refine ⟨rfl, by simp, ?_⟩
    exact mem_set_preserve (mem_set_preserve hc (by decide)) (by decide)
  · simp only [Option.some.injEq, Prod.mk.injEq] at h
    obtain ⟨rfl, rfl⟩ := h
    refine ⟨rfl, by simp, ?_⟩
    exact mem_set_preserve hc (by decide)

theorem walkStep_inv (c : Ctx) (i : Nat) (cls : List AT) (pairs : List (Nat × Nat))
    (hi : i + 2 < c.n)
    (hc : ∀ a ∈ cls, a ∈ walkTypes)
    (hp : ∀ p ∈ pairs, p.1 < c.n ∧ p.2 < c.n) :
    (∀ a ∈ (walkStep c i cls pairs).2.1, a ∈ walkTypes) ∧
    (walkStep c i cls pairs).2.1.length = cls.length ∧
    (∀ p ∈ (walkStep c i cls pairs).2.2, p.1 < c.n ∧ p.2 < c.n) := by
  by_cases h1 : |c.drrs.getD i 0| ≤ 1
  · simp only [walkStep, if_pos h1]
    exact ⟨hc, trivial, hp⟩
  by_cases h2 : ectopicFires c i
  · by_cases h3 : 0 < i
    · simp only [walkStep, if_neg h1, if_pos h2, if_pos h3]
      refine ⟨hc, trivial, ?_⟩
      intro p hpm
      rcases List.mem_append.mp hpm with hm | hm
      · exact hp p hm
      · simp only [List.mem_singleton] at hm
        subst hm
        exact ⟨by omega, by omega⟩
    · simp only [walkStep, if_neg h1, if_pos h2, if_neg h3]
      exact ⟨mem_set_preserve hc (by decide), by simp, hp⟩
  by_cases h4 : 1 < |c.drrs.getD i 0| ∨ 3 < |c.mrrs.getD i 0|
  · rcases htc : tryCand c cls i with _ | ⟨i', cls'⟩
    · by_cases h5 : i + 2 < c.n ∧ |c.drrs.getD (i + 1) 0| < |c.drrs.getD (i + 2) 0|
      · rcases htc2 : tryCand c cls (i + 1) with _ | ⟨i'', cls''⟩
        · simp only [walkStep, if_neg h1, if_neg h2, if_pos h4, htc, if_pos h5, htc2]
          exact ⟨mem_set_preserve hc (by decide), by simp, hp⟩
        · simp only [walkStep, if_neg h1, if_neg h2, if_pos h4, htc, if_pos h5, htc2]
          obtain ⟨_, hl, hm⟩ := tryCand_inv c cls (i + 1) i'' cls'' htc2 hc
          exact ⟨hm, hl, hp⟩
      · simp only [walkStep, if_neg h1, if_neg h2, if_pos h4, htc, if_neg h5]
        exact ⟨mem_set_preserve hc (by decide), by simp, hp⟩
    · simp only [walkStep, if_neg h1, if_neg h2, if_pos h4, htc]
      obtain ⟨_, hl, hm⟩ := tryCand_inv c cls i i' cls' htc hc
      exact ⟨hm, hl, hp⟩
  · simp only [walkStep, if_neg h1, if_neg h2, if_neg h4]
    exact ⟨hc, trivial, hp⟩

theorem walk_inv (c : Ctx) (fuel : Nat) :
    ∀ (i : Nat) (cls : List AT) (pairs : List (Nat × Nat)),
      (∀ a ∈ cls, a ∈ walkTypes) →
      (∀ p ∈ pairs, p.1 < c.n ∧ p.2 < c.n) →
      (∀ a ∈ (walk c fuel i cls pairs).1, a ∈ walkTypes) ∧
      (walk c fuel i cls pairs).1.length = cls.length ∧
      (∀ p ∈ (walk c fuel i cls pairs).2, p.1 < c.n ∧ p.2 < c.n) := by
  induction fuel with
  | zero =>
    intro i cls pairs hc hp
    exact ⟨hc, rfl, hp⟩
  | succ fuel ih =>
    intro i cls pairs hc hp
    by_cases hi : i + 2 < c.n
    · have hs := walkStep_inv c i cls pairs hi hc hp
      have hrec := ih (walkStep c i cls pairs).1 (walkStep c i cls pairs).2.1
        (walkStep c i cls pairs).2.2 hs.1 hs.2.2
      simp only [walk, if_pos hi]
      exact ⟨hrec.1, hrec.2.1.trans hs.2.1, hrec.2.2⟩
    · simp only [walk, if_neg hi]
      exact ⟨hc, trivial, hp⟩

theorem correct1_good (rr medrr : List ℚ) (cls : List AT)
    (hpos : ∀ x ∈ rr, 0 < x)
    (hmed : ∀ i, i < rr.length → 0 < medrr.getD i 0)
    (hcl : cls.length = rr.length) (hc : ∀ a ∈ cls, a ∈ walkTypes) :
    ∀ r ∈ correct1 rr medrr rr.length cls, GoodItem r := by
  intro r hr
  simp only [correct1, List.mem_map, List.mem_range] at hr
  obtain ⟨idx, hidx, rfl⟩ := hr
  have hrrpos : 0 < rr.getD idx 0 := hpos _ (getD_mem_of_lt rr idx 0 hidx)
  have hcls : cls.getD idx AT.none ∈ walkTypes :=
    hc _ (getD_mem_of_lt cls idx AT.none (by omega))
  rcases hget : cls.getD idx AT.none with _ | _ | _ | _ | _ | _ | _
  · -- none
    simp only [hget]
    exact ⟨by simp, fun h => absurd h (by simp), fun _ => ⟨rr.getD idx 0, rfl, hrrpos⟩⟩
  · -- ectopic: impossible, the walk never stores it
    rw [hget] at hcls
    exact absurd hcls (by decide)
  · -- missed
    simp only [hget]
    exact ⟨by simp, fun h => absurd h (by simp),
      fun _ => ⟨rr.getD idx 0 / 2, rfl, by positivity⟩⟩
  · -- extra
    simp only [hget]
    refine ⟨by simp, fun h => absurd h (by simp), fun _ => ?_⟩
    by_cases h1 : idx + 1 < rr.length
    · have := hpos _ (getD_mem_of_lt rr (idx + 1) 0 h1)
      exact ⟨_, by rw [if_pos h1], by positivity⟩
    · exact ⟨_, by rw [if_neg h1], hrrpos⟩
  · -- extra_absorbed
    simp only [hget]
    exact ⟨by simp, fun _ => rfl, fun h => absurd rfl h⟩
  · -- longshort
    simp only [hget]
    exact ⟨by simp, fun h => absurd h (by simp), fun _ => ⟨medrr.getD idx 0, rfl, hmed idx hidx⟩⟩
  · -- missed_inserted: impossible
    rw [hget] at hcls
    exact absurd hcls (by decide)

theorem applyEctopic_good (rr : List ℚ) (hpos : ∀ x ∈ rr, 0 < x) :
    ∀ (pairs : List (Nat × Nat)) (res : List RRItem),
      (∀ p ∈ pairs, p.1 < rr.length ∧ p.2 < rr.length) →
      (∀ r ∈ res, GoodItem r) →
      ∀ r ∈ applyEctopic rr pairs res, GoodItem r := by
  intro pairs
  induction pairs with
  | nil =>
    intro res _ hres
    simpa [applyEctopic] using hres
  | cons p rest ih =>
    intro res hp hres
    have hbound := hp p (List.mem_cons_self p rest)
    have havg : 0 < (rr.getD p.1 0 + rr.getD p.2 0) / 2 := by
      have h1 := hpos _ (getD_mem_of_lt rr p.1 0 hbound.1)
      have h2 := hpos _ (getD_mem_of_lt rr p.2 0 hbound.2)
      positivity
    have hitem : GoodItem ⟨some ((rr.getD p.1 0 + rr.getD p.2 0) / 2), AT.ectopic⟩ :=
      ⟨by simp, fun h => absurd h (by simp), fun _ => ⟨_, rfl, havg⟩⟩
    simp only [applyEctopic, List.foldl_cons] at ih ⊢
    exact ih _ (fun q hq => hp q (List.mem_cons_of_mem p hq))
      (mem_set_preserve (mem_set_preserve hres hitem) hitem)

theorem ctxOf_n (rr : List ℚ) : (ctxOf rr).n = rr.length := rfl

theorem ctxOf_medrr (rr : List ℚ) :
    (ctxOf rr).medrr = rollingCentered rr MEDIAN_WINDOW median := rfl

theorem analyzeMain_results (rr : List ℚ) :
    (analyzeMain rr).results =
      applyEctopic rr (walk (ctxOf rr) rr.length 0 (List.replicate rr.length AT.none) []).2
        (correct1 rr (ctxOf rr).medrr rr.length
          (walk (ctxOf rr) rr.length 0 (List.replicate rr.length AT.none) []).1) := rfl

theorem analyzeMain_cleanSeries (rr : List ℚ) :
    (analyzeMain rr).cleanSeries = buildCleanSeries (analyzeMain rr).results := rfl

theorem analyzeRR_results_good (rr : List ℚ) (hpos : ∀ x ∈ rr, 0 < x) :
    ∀ r ∈ (analyzeRR rr).results, GoodItem r := by
  by_cases h4 : rr.length < 4
  · intro r hr
    simp only [analyzeRR, if_pos h4, List.mem_map] at hr
    obtain ⟨v, hv, rfl⟩ := hr
    exact ⟨by simp, fun h => absurd h (by simp), fun _ => ⟨v, rfl, hpos v hv⟩⟩
  · have han : analyzeRR rr = analyzeMain rr := by
      simp [analyzeRR, h4]
    rw [han, analyzeMain_results]
    have hrepl : ∀ a ∈ List.replicate rr.length AT.none, a ∈ walkTypes := by
      intro a ha
      rw [List.eq_of_mem_replicate ha]
      decide
    have hw := walk_inv (ctxOf rr) rr.length 0 (List.replicate rr.length AT.none) []
      hrepl (by simp)
    rw [ctxOf_n] at hw
    have hcl : (walk (ctxOf rr) rr.length 0 (List.replicate rr.length AT.none) []).1.length
        = rr.length := by
      rw [hw.2.1, List.length_replicate]
    have hmed : ∀ i, i < rr.length → 0 < (ctxOf rr).medrr.getD i 0 := by
      intro i hi
      rw [ctxOf_medrr]
      exact rollingCentered_median_pos rr MEDIAN_WINDOW hpos i hi
    exact applyEctopic_good rr hpos _ _ hw.2.2
      (correct1_good rr (ctxOf rr).medrr _ hpos hmed hcl hw.1)

theorem buildCleanSeries_length (res : List RRItem) (h : ∀ r ∈ res, GoodItem r) :
    (buildCleanSeries res).length =
      res.countP (fun r => decide (r.artifact_type = AT.none ∨ r.artifact_type = AT.ectopic ∨
        r.artifact_type = AT.extra ∨ r.artifact_type = AT.longshort))
      + 2 * res.countP (fun r => decide (r.artifact_type = AT.missed)) := by
  induction res with
  | nil => simp [buildCleanSeries]
  | cons r rest ih =>
    have hr := h r (List.mem_cons_self r rest)
    have hrest := ih fun q hq => h q (List.mem_cons_of_mem r hq)
    rcases hclean : r.rr_clean with _ | v
    · -- null rr_clean forces extra_absorbed
      have habs : r.artifact_type = AT.extra_absorbed := by
        by_contra hne
        obtain ⟨v, hv, _⟩ := hr.2.2 hne
        rw [hclean] at hv
        exact Option.noConfusion hv
      have hbs : buildCleanSeries (r :: rest) = buildCleanSeries rest := by
        simp only [buildCleanSeries, hclean]
      rw [hbs, hrest, List.countP_cons, List.countP_cons]
      simp [habs]
    · by_cases hmiss : r.artifact_type = AT.missed
      · have hbs : buildCleanSeries (r :: rest) = v :: v :: buildCleanSeries rest := by
          simp [buildCleanSeries, hclean, hmiss]
        rw [hbs, List.length_cons, List.length_cons, hrest,
          List.countP_cons, List.countP_cons]
        simp [hmiss]
        omega
      · have habs : r.artifact_type ≠ AT.extra_absorbed := fun h => by
          rw [hr.2.1 h] at hclean
          exact Option.noConfusion hclean
        have hmem := hr.1
        simp only [List.mem_cons, List.not_mem_nil, or_false] at hmem
        have hp4 : decide (r.artifact_type = AT.none ∨ r.artifact_type = AT.ectopic ∨
            r.artifact_type = AT.extra ∨ r.artifact_type = AT.longshort) = true := by
          rcases hmem with h | h | h | h | h | h
          · simp [h]
          · simp [h]
          · exact absurd h hmiss
          · simp [h]
          · exact absurd h habs
          · simp [h]
        have hbs : buildCleanSeries (r :: rest) = v :: buildCleanSeries rest := by
          simp [buildCleanSeries, hclean, hmiss]
        rw [hbs, List.length_cons, hrest, List.countP_cons, List.countP_cons]
        simp [hp4, hmiss]
        omega

theorem buildCleanSeries_map_none (l : List ℚ) :
    buildCleanSeries (l.map fun v => { rr_clean := some v, artifact_type := AT.none }) = l := by
  induction l with
  | nil => simp [buildCleanSeries]
  | cons v rest ih => simp [buildCleanSeries, ih]

/-- C1: for fewer than 4 RR intervals `analyzeRR` returns the identity
classification (every entry `{rr_clean = rr[i], type = none}`) and
`cleanSeries` equal to the input. -/
theorem analyzeRR_short_input (rr : List ℚ) (h : rr.length < 4) :
    (analyzeRR rr).results =
      rr.map (fun v => { rr_clean := some v, artifact_type := AT.none }) ∧
    (analyzeRR rr).cleanSeries = rr := by
  simp [analyzeRR, h]

/-- Witness for C1 at the concrete input `[605, 612, 1210]`. -/
theorem analyzeRR_short_input_witness :
    ([605, 612, 1210] : List ℚ).length < 4 ∧
    ((analyzeRR [605, 612, 1210]).results =
      [{ rr_clean := some 605, artifact_type := AT.none },
       { rr_clean := some 612, artifact_type := AT.none },
       { rr_clean := some 1210, artifact_type := AT.none }] ∧
     (analyzeRR [605, 612, 1210]).cleanSeries = [605, 612, 1210]) := by
  refine ⟨by decide, ?_⟩
  have h := analyzeRR_short_input [605, 612, 1210] (by decide)
  simpa using h

attribute [local semireducible] Rat.add Rat.mul Rat.sub Rat.inv in
/-- C2: on `[605, 612, 1210, 598, 610]` the classifier flags index 2 as a
missed beat with `rr_clean = 605` and splits it in the clean series. -/
theorem analyzeRR_missed_vector :
    (analyzeRR [605, 612, 1210, 598, 610]).results.getD 2 ⟨Option.none, AT.none⟩ =
      { rr_clean := some 605, artifact_type := AT.missed } ∧
    (analyzeRR [605, 612, 1210, 598, 610]).cleanSeries = [605, 612, 605, 605, 598, 610] := by
  decide

/-- C3: for positive input every result's artifact type is one of the six
labels and `rr_clean` is a positive rational unless the beat is an
absorbed extra beat, in which case it is null. -/
theorem analyzeRR_types_and_rr_clean (rr : List ℚ) (hpos : ∀ x ∈ rr, 0 < x) :
    ∀ r ∈ (analyzeRR rr).results,
      r.artifact_type ∈ [AT.none, AT.ectopic, AT.missed, AT.extra, AT.extra_absorbed,
        AT.longshort] ∧
      (r.artifact_type = AT.extra_absorbed → r.rr_clean = Option.none) ∧
      (r.artifact_type ≠ AT.extra_absorbed → ∃ v, r.rr_clean = some v ∧ 0 < v) :=
  analyzeRR_results_good rr hpos

/-- Witness for C3 at the concrete input `[605, 612, 1210, 598, 610]`. -/
theorem analyzeRR_types_and_rr_clean_witness :
    (∀ x ∈ ([605, 612, 1210, 598, 610] : List ℚ), 0 < x) ∧
    (∀ r ∈ (analyzeRR [605, 612, 1210, 598, 610]).results,
      r.artifact_type ∈ [AT.none, AT.ectopic, AT.missed, AT.extra, AT.extra_absorbed,
        AT.longshort] ∧
      (r.artifact_type = AT.extra_absorbed → r.rr_clean = Option.none) ∧
      (r.artifact_type ≠ AT.extra_absorbed → ∃ v, r.rr_clean = some v ∧ 0 < v)) :=
  ⟨by decide, analyzeRR_types_and_rr_clean [605, 612, 1210, 598, 610] (by decide)⟩

/-- C4: the clean series' length equals the number of results classified
none/ectopic/extra/longshort plus twice the number classified missed
(absorbed beats contribute nothing). -/
theorem analyzeRR_cleanSeries_count (rr : List ℚ) (hpos : ∀ x ∈ rr, 0 < x) :
    (analyzeRR rr).cleanSeries.length =
      (analyzeRR rr).results.countP (fun r => decide (r.artifact_type = AT.none ∨
        r.artifact_type = AT.ectopic ∨ r.artifact_type = AT.extra ∨
        r.artifact_type = AT.longshort))
      + 2 * (analyzeRR rr).results.countP (fun r => decide (r.artifact_type = AT.missed)) := by
  have hgood := analyzeRR_results_good rr hpos
  have hbs : (analyzeRR rr).cleanSeries = buildCleanSeries (analyzeRR rr).results := by
    by_cases h4 : rr.length < 4
    · simp only [analyzeRR, if_pos h4]
      exact (buildCleanSeries_map_none rr).symm
    · simp only [analyzeRR, if_neg h4]
      exact analyzeMain_cleanSeries rr
  rw [hbs]
  exact buildCleanSeries_length _ hgood

/-- Witness for C4 at the concrete input `[605, 612, 1210, 598, 610]`. -/
theorem analyzeRR_cleanSeries_count_witness :
    (∀ x ∈ ([605, 612, 1210, 598, 610] : List ℚ), 0 < x) ∧
    (analyzeRR [605, 612, 1210, 598, 610]).cleanSeries.length =
      (analyzeRR [605, 612, 1210, 598, 610]).results.countP
        (fun r => decide (r.artifact_type = AT.none ∨
          r.artifact_type = AT.ectopic ∨ r.artifact_type = AT.extra ∨
          r.artifact_type = AT.longshort))
      + 2 * (analyzeRR [605, 612, 1210, 598, 610]).results.countP
        (fun r => decide (r.artifact_type = AT.missed)) :=
  ⟨by decide, analyzeRR_cleanSeries_count [605, 612, 1210, 598, 610] (by decide)⟩

attribute [local semireducible] Rat.add Rat.mul Rat.sub Rat.inv in
/-- C5 counterexample: in the walk's loop body, when the ectopic test
fires at index 0 the beat is marked longshort but the walk advances by
2 (to index 2), not by 1 as claimed. -/
theorem walkStep_i0_cex :
    ectopicFires ctxEct0 0 ∧
    (walkStep ctxEct0 0 (List.replicate 4 AT.none) []).1 = 2 ∧
    (walkStep ctxEct0 0 (List.replicate 4 AT.none) []).2.1 =
      [AT.longshort, AT.none, AT.none, AT.none] ∧
    ¬ (walkStep ctxEct0 0 (List.replicate 4 AT.none) []).1 = 0 + 1 := by
  decide

/-- C5 (amended): whenever the ectopic test fires the walk advances by
2; at `i > 0` it records the ectopic pair `(i−1, i)`, at `i = 0` it
marks the beat longshort. -/
theorem walkStep_ectopic (c : Ctx) (i : Nat) (cls : List AT) (pairs : List (Nat × Nat))
    (hf : ectopicFires c i) :
    walkStep c i cls pairs =
      if 0 < i then (i + 2, cls, pairs ++ [(i - 1, i)])
      else (i + 2, cls.set i AT.longshort, pairs) := by
  have h1 : ¬ |c.drrs.getD i 0| ≤ 1 := by
    rcases hf with ⟨h, _⟩ | ⟨h, _⟩
    · intro hle
      linarith [(abs_le.mp hle).2]
    · intro hle
      linarith [(abs_le.mp hle).1]
  simp only [walkStep, if_neg h1, if_pos hf]

attribute [local semireducible] Rat.add Rat.mul Rat.sub Rat.inv in
/-- Witness for the amended C5 at a concrete context with the test
firing at index 1. -/
theorem walkStep_ectopic_witness :
    walkStep ctxEct1 1 (List.replicate 5 AT.none) [] =
      (3, List.replicate 5 AT.none, [(0, 1)]) := by
  have h := walkStep_ectopic ctxEct1 1 (List.replicate 5 AT.none) [] (by decide)
  simpa using h

theorem foldl_beats_writes (t : ℚ) (rrs : List ℚ) :
    ∀ (cum0 : ℚ) (st : DevState) (ws : List StoreWrite),
      (rrs.foldl (beatsFold t) (cum0, st, ws)).2.2 = ws ++ rawWritesFor (t + cum0) rrs := by
  induction rrs with
  | nil =>
    intro cum0 st ws
    simp [rawWritesFor]
  | cons rrv rest ih =>
    intro cum0 st ws
    rw [List.foldl_cons]
    rw [show beatsFold t (cum0, st, ws) rrv =
      ((cum0 + rrv : ℚ),
        ({ rrWindow := (if 60 < (st.rrWindow ++ [rrv]).length
             then (st.rrWindow ++ [rrv]).drop 1 else st.rrWindow ++ [rrv]),
           rmssdBuffer := st.rmssdBuffer, totalBeats := st.totalBeats + 1,
           lastPosture := st.lastPosture } : DevState),
        ws ++ [StoreWrite.raw (t + cum0) rrv]) from rfl]
    rw [ih, rawWritesFor]
    simp [add_assoc]

theorem rawTs_append (l1 l2 : List StoreWrite) :
    rawTs (l1 ++ l2) = rawTs l1 ++ rawTs l2 := by
  simp [rawTs, List.filterMap_append]

theorem rawTs_rawWritesFor (rrs : List ℚ) :
    ∀ t : ℚ, rawTs (rawWritesFor t rrs) = cumTs t rrs := by
  induction rrs with
  | nil => intro t; simp [rawWritesFor, cumTs, rawTs]
  | cons rrv rest ih =>
    intro t
    simp only [rawWritesFor, cumTs, rawTs, List.filterMap_cons]
    rw [← rawTs]
    rw [ih]

theorem cumTs_length (rrs : List ℚ) : ∀ t : ℚ, (cumTs t rrs).length = rrs.length := by
  induction rrs with
  | nil => intro t; simp [cumTs]
  | cons rrv rest ih => intro t; simp [cumTs, ih]

theorem cumTs_lower (rrs : List ℚ) (hpos : ∀ x ∈ rrs, 0 < x) :
    ∀ t : ℚ, ∀ a ∈ cumTs t rrs, t ≤ a := by
  induction rrs with
  | nil => intro t a ha; simp [cumTs] at ha
  | cons rrv rest ih =>
    intro t a ha
    rw [cumTs] at ha
    rcases List.mem_cons.mp ha with rfl | hm
    · exact le_refl a
    · have hrrv : 0 < rrv := hpos rrv (List.mem_cons_self rrv rest)
      have := ih (fun x hx => hpos x (List.mem_cons_of_mem rrv hx)) (t + rrv) a hm
      linarith

theorem cumTs_pairwise (rrs : List ℚ) (hpos : ∀ x ∈ rrs, 0 < x) :
    ∀ t : ℚ, (cumTs t rrs).Pairwise (· < ·) := by
  induction rrs with
  | nil => intro t; simp [cumTs]
  | cons rrv rest ih =>
    intro t
    rw [cumTs, List.pairwise_cons]
    constructor
    · intro a ha
      have hrrv : 0 < rrv := hpos rrv (List.mem_cons_self rrv rest)
      have := cumTs_lower rest (fun x hx => hpos x (List.mem_cons_of_mem rrv hx)) (t + rrv) a ha
      linarith
    · exact ih (fun x hx => hpos x (List.mem_cons_of_mem rrv hx)) (t + rrv)

theorem postBeats_main (rmssdOf : List ℚ → Option ℚ) (states : List (String × DevState))
    (req : BeatsRequest) (now : ℚ) (d : String) (rrs : List ℚ)
    (hd : req.device = some d) (hne : d ≠ "") (hrr : req.rrIntervals = some rrs)
    (h0 : rrs ≠ []) :
    (postBeats rmssdOf states req now).1 = BeatsResponse.okBeats rrs.length ∧
    rawTs (postBeats rmssdOf states req now).2.1 = cumTs (beatT req now) rrs := by
  have hlen : ¬ rrs.length = 0 := by simpa [List.length_eq_zero] using h0
  constructor
  · simp only [postBeats, hd, hrr]
    rw [if_neg hne, if_neg hlen]
  · simp only [postBeats, hd, hrr]
    rw [if_neg hne, if_neg hlen]
    simp only [rawTs_append, foldl_beats_writes]
    simp only [List.nil_append, add_zero, rawTs_rawWritesFor]
    simp [rawTs]

/-- C6 (amended): an accepted `/beats` request with non-empty
`rrIntervals` is answered `ok` with `received = rrIntervals.length`, one
raw beat is written per interval, their timestamps are exactly the
cumulative series `t, t+rr[0], t+rr[0]+rr[1], …`, and that series is
strictly increasing whenever every interval is positive (the handler
accepts non-positive intervals, for which it is not). -/
theorem postBeats_raw_series (rmssdOf : List ℚ → Option ℚ)
    (states : List (String × DevState)) (req : BeatsRequest) (now : ℚ)
    (d : String) (rrs : List ℚ)
    (hd : req.device = some d) (hne : d ≠ "") (hrr : req.rrIntervals = some rrs)
    (h0 : rrs ≠ []) :
    (postBeats rmssdOf states req now).1 = BeatsResponse.okBeats rrs.length ∧
    rawTs (postBeats rmssdOf states req now).2.1 = cumTs (beatT req now) rrs ∧
    (rawTs (postBeats rmssdOf states req now).2.1).length = rrs.length ∧
    ((∀ x ∈ rrs, 0 < x) →
      (rawTs (postBeats rmssdOf states req now).2.1).Pairwise (· < ·)) := by
  obtain ⟨hresp, hwrites⟩ := postBeats_main rmssdOf states req now d rrs hd hne hrr h0
  refine ⟨hresp, hwrites, ?_, ?_⟩
  · rw [hwrites, cumTs_length]
  · intro hpos
    rw [hwrites]
    exact cumTs_pairwise rrs hpos (beatT req now)

attribute [local semireducible] Rat.add Rat.mul Rat.sub Rat.inv in
/-- C6 counterexample: the request
`{device = "polar-1", timestamp = 1000, rrIntervals = [0, 100]}` is
accepted (`ok`, `received = 2`) but the two raw-beat timestamps are
`[1000, 1000]`, which is not strictly increasing. -/
theorem postBeats_raw_series_cex :
    (postBeats (fun _ => Option.none) []
      ⟨Option.none, some "polar-1", some 1000, Option.none, some [0, 100], Option.none⟩
      0).1 = BeatsResponse.okBeats 2 ∧
    rawTs (postBeats (fun _ => Option.none) []
      ⟨Option.none, some "polar-1", some 1000, Option.none, some [0, 100], Option.none⟩
      0).2.1 = [1000, 1000] ∧
    ¬ (rawTs (postBeats (fun _ => Option.none) []
      ⟨Option.none, some "polar-1", some 1000, Option.none, some [0, 100], Option.none⟩
      0).2.1).Pairwise (· < ·) := by
  decide

attribute [local semireducible] Rat.add Rat.mul Rat.sub Rat.inv in
/-- Witness for the amended C6 at a concrete request with positive
intervals. -/
theorem postBeats_raw_series_witness :
    (postBeats (fun _ => Option.none) []
      ⟨Option.none, some "polar-1", some 1000, Option.none, some [800, 700], Option.none⟩
      0).1 = BeatsResponse.okBeats 2 ∧
    rawTs (postBeats (fun _ => Option.none) []
      ⟨Option.none, some "polar-1", some 1000, Option.none, some [800, 700], Option.none⟩
      0).2.1 = cumTs 1000 [800, 700] ∧
    (rawTs (postBeats (fun _ => Option.none) []
      ⟨Option.none, some "polar-1", some 1000, Option.none, some [800, 700], Option.none⟩
      0).2.1).length = 2 ∧
    (rawTs (postBeats (fun _ => Option.none) []
      ⟨Option.none, some "polar-1", some 1000, Option.none, some [800, 700], Option.none⟩
      0).2.1).Pairwise (· < ·) := by
  have h := postBeats_raw_series (fun _ => Option.none) []
    ⟨Option.none, some "polar-1", some 1000, Option.none, some [800, 700], Option.none⟩
    0 "polar-1" [800, 700] rfl (by decide) rfl (by decide)
  exact ⟨h.1, h.2.1, h.2.2.1, h.2.2.2 (by decide)⟩

/-- C10: a valid `/beats` request whose `rrIntervals` is the empty array
is answered `{ok, received = 0}` with no store writes and the device
state map unchanged. -/
theorem postBeats_empty_rr (rmssdOf : List ℚ → Option ℚ)
    (states : List (String × DevState)) (req : BeatsRequest) (now : ℚ) (d : String)
    (hd : req.device = some d) (hne : d ≠ "") (hrr : req.rrIntervals = some []) :
    postBeats rmssdOf states req now = (BeatsResponse.okBeats 0, [], states) := by
  simp only [postBeats, hd, hrr]
  rw [if_neg hne]
  simp

/-- Witness for C10 at a concrete request against a non-empty state map. -/
theorem postBeats_empty_rr_witness :
    postBeats (fun _ => Option.none) [("polar-1", freshDevState)]
      ⟨Option.none, some "polar-1", some 5, Option.none, some [], Option.none⟩ 0 =
      (BeatsResponse.okBeats 0, [], [("polar-1", freshDevState)]) :=
  postBeats_empty_rr (fun _ => Option.none) [("polar-1", freshDevState)]
    ⟨Option.none, some "polar-1", some 5, Option.none, some [], Option.none⟩ 0
    "polar-1" rfl (by decide) rfl

/-- C9: `triggerReprocess(device, fromMs)` leaves the device's
`lastProcessedMs` at the minimum of its old value and `fromMs` (absent
entries stay absent); in particular it never increases it. -/
theorem triggerReprocess_min (states : String → Option ℚ) (device : String) (fromMs : ℚ) :
    triggerReprocess states device fromMs device =
      (states device).map (fun m => min m fromMs) := by
  unfold triggerReprocess
  rcases h : states device with _ | last
  · simpa using h
  · by_cases flt : fromMs < last
    · simp [flt, min_eq_right flt.le]
    · simp only [if_neg flt]
      rw [Option.map_some', min_eq_left (not_lt.mp flt)]
      exact h

/-- C7: every `ok` response of `/beats/batch` satisfies
`received = new + duplicates`; `new` counts exactly the incoming points
retained by `newPointsOf`; with existing beats present a point is
retained iff it falls within a detected gap (±300 ms); with none present
the whole incoming set is retained. -/
theorem postBeatsBatch_counts (req : BatchRequest) (queryRes : Except Unit (List ExBeat))
    (writeRes : Except Unit Unit) (r nw dp : Nat) (d : String) (beats : List BatchBeat)
    (hd : req.device = some d) (hb : req.beats = some beats)
    (h : postBeatsBatch req queryRes writeRes = BatchResponse.okBatch r nw dp) :
    r = nw + dp ∧
    nw = (newPointsOf (handlerExisting queryRes) (handlerIncoming beats)).length ∧
    (handlerExisting queryRes ≠ [] →
      ∀ p, p ∈ newPointsOf (handlerExisting queryRes) (handlerIncoming beats) ↔
        p ∈ handlerIncoming beats ∧
        inGap (gapsOf (handlerExisting queryRes) (firstTsOf (handlerIncoming beats))
          (lastTsOf (handlerIncoming beats))) p = true) ∧
    (handlerExisting queryRes = [] →
      newPointsOf (handlerExisting queryRes) (handlerIncoming beats) =
        handlerIncoming beats) := by
  have hiff : handlerExisting queryRes ≠ [] →
      ∀ p, p ∈ newPointsOf (handlerExisting queryRes) (handlerIncoming beats) ↔
        p ∈ handlerIncoming beats ∧
        inGap (gapsOf (handlerExisting queryRes) (firstTsOf (handlerIncoming beats))
          (lastTsOf (handlerIncoming beats))) p = true := by
    intro hne p
    unfold newPointsOf
    rw [if_neg (by simpa [List.isEmpty_iff] using hne)]
    exact List.mem_filter
  have hempty : handlerExisting queryRes = [] →
      newPointsOf (handlerExisting queryRes) (handlerIncoming beats) =
        handlerIncoming beats := by
    intro he
    simp [newPointsOf, he]
  have hle : (newPointsOf (handlerExisting queryRes) (handlerIncoming beats)).length ≤
      (handlerIncoming beats).length := by
    unfold newPointsOf
    split_ifs
    · exact le_refl _
    · exact List.length_filter_le _ _
  simp only [postBeatsBatch, hd, hb] at h
  by_cases hval : d = "" ∨ beats.isEmpty
  · rw [if_pos hval] at h
    exact absurd h (by simp)
  rw [if_neg hval] at h
  by_cases hinc : (handlerIncoming beats).isEmpty
  · rw [if_pos hinc] at h
    simp only [BatchResponse.okBatch.injEq] at h
    obtain ⟨hr, hnw, hdp⟩ := h
    subst hr; subst hnw; subst hdp
    have hinc' : handlerIncoming beats = [] := List.isEmpty_iff.mp hinc
    refine ⟨rfl, ?_, hiff, hempty⟩
    simp [newPointsOf, hinc']
  rw [if_neg hinc] at h
  by_cases hpos : 0 < (newPointsOf (handlerExisting queryRes) (handlerIncoming beats)).length
  · rw [if_pos hpos] at h
    cases writeRes with
    | error e => exact absurd h (by simp)
    | ok u =>
      simp only [BatchResponse.okBatch.injEq] at h
      obtain ⟨hr, hnw, hdp⟩ := h
      subst hr; subst hnw; subst hdp
      exact ⟨by omega, rfl, hiff, hempty⟩
  · rw [if_neg hpos] at h
    simp only [BatchResponse.okBatch.injEq] at h
    obtain ⟨hr, hnw, hdp⟩ := h
    subst hr; subst hnw; subst hdp
    exact ⟨by omega, rfl, hiff, hempty⟩

/-- C8 (amended): when the handler would have succeeded with new points
to write, a write error on the raw-beat batch write turns the response
into a 500 server error; a dedup read failure alone does not (it is
caught and treated as "no existing beats"). -/
theorem postBeatsBatch_write_error (req : BatchRequest)
    (queryRes : Except Unit (List ExBeat)) (r nw dp : Nat)
    (h : postBeatsBatch req queryRes (Except.ok ()) = BatchResponse.okBatch r nw dp)
    (hnw : 0 < nw) :
    postBeatsBatch req queryRes (Except.error ()) = BatchResponse.serverError := by
  rcases req with ⟨src, dev, beats⟩
  rcases dev with _ | d
  · exact absurd h (by simp [postBeatsBatch])
  rcases beats with _ | bs
  · exact absurd h (by simp [postBeatsBatch])
  simp only [postBeatsBatch] at h ⊢
  by_cases hval : d = "" ∨ bs.isEmpty
  · rw [if_pos hval] at h
    exact absurd h (by simp)
  rw [if_neg hval] at h ⊢
  by_cases hinc : (handlerIncoming bs).isEmpty
  · rw [if_pos hinc] at h
    simp only [BatchResponse.okBatch.injEq] at h
    omega
  rw [if_neg hinc] at h ⊢
  by_cases hpos : 0 < (newPointsOf (handlerExisting queryRes) (handlerIncoming bs)).length
  · rw [if_pos hpos]
  · rw [if_neg hpos] at h
    simp only [BatchResponse.okBatch.injEq] at h
    omega

attribute [local semireducible] Rat.add Rat.mul Rat.sub Rat.inv in
/-- Witness for C7: on `batchReq1` against an empty store the response is
`{received 1, new 1, duplicates 0}` and the theorem's count identities
hold. -/
theorem postBeatsBatch_counts_witness :
    postBeatsBatch batchReq1 (Except.ok []) (Except.ok ()) = BatchResponse.okBatch 1 1 0 ∧
    (1 = 1 + 0 ∧
     1 = (newPointsOf (handlerExisting (Except.ok [])) (handlerIncoming
       [{ timestamp := 0, heartRate := Option.none, rrIntervals := some [800] }])).length ∧
     (handlerExisting (Except.ok ([] : List ExBeat)) ≠ [] →
       ∀ p, p ∈ newPointsOf (handlerExisting (Except.ok [])) (handlerIncoming
           [{ timestamp := 0, heartRate := Option.none, rrIntervals := some [800] }]) ↔
         p ∈ handlerIncoming
           [{ timestamp := 0, heartRate := Option.none, rrIntervals := some [800] }] ∧
         inGap (gapsOf (handlerExisting (Except.ok []))
           (firstTsOf (handlerIncoming
             [{ timestamp := 0, heartRate := Option.none, rrIntervals := some [800] }]))
           (lastTsOf (handlerIncoming
             [{ timestamp := 0, heartRate := Option.none, rrIntervals := some [800] }])))
           p = true) ∧
     (handlerExisting (Except.ok ([] : List ExBeat)) = [] →
       newPointsOf (handlerExisting (Except.ok [])) (handlerIncoming
           [{ timestamp := 0, heartRate := Option.none, rrIntervals := some [800] }]) =
         handlerIncoming
           [{ timestamp := 0, heartRate := Option.none, rrIntervals := some [800] }])) :=
  ⟨by decide,
   postBeatsBatch_counts batchReq1 (Except.ok []) (Except.ok ()) 1 1 0 "polar-1"
     [{ timestamp := 0, heartRate := Option.none, rrIntervals := some [800] }]
     rfl rfl (by decide)⟩

attribute [local semireducible] Rat.add Rat.mul Rat.sub Rat.inv in
/-- C8 counterexample: on `batchReq1` a dedup read failure with a
successful write is answered `{ok, received 1, new 1, duplicates 0}`,
not a 500 server error. -/
theorem postBeatsBatch_read_error_cex :
    postBeatsBatch batchReq1 (Except.error ()) (Except.ok ()) = BatchResponse.okBatch 1 1 0 ∧
    postBeatsBatch batchReq1 (Except.error ()) (Except.ok ()) ≠ BatchResponse.serverError := by
  decide

attribute [local semireducible] Rat.add Rat.mul Rat.sub Rat.inv in
/-- Witness for the amended C8: on `batchReq1` a failing batch write
yields the 500 server error. -/
theorem postBeatsBatch_write_error_witness :
    postBeatsBatch batchReq1 (Except.ok []) (Except.error ()) = BatchResponse.serverError :=
  postBeatsBatch_write_error batchReq1 (Except.ok []) 1 1 0 (by decide) (by decide)

end PolarHub
